import Mathlib

/-!
Verification development for the REGINA event-journaling backend (`main.py`).

The Python source is shallowly embedded below:
* the LLM reply is modelled by the outcome of `json.loads` on the reply body,
  an `Option JsonVal` (`none` = the reply was not parsable as JSON);
* Python `dict` records written by the code are modelled as Lean structures
  with the exact fields the code writes; dynamic `dict.get` access on the
  parsed JSON value is modelled by `jsonGet`, which fails (as Python raises
  `AttributeError`) when the value is not a JSON object;
* Python `float` arithmetic in the alerts endpoint is modelled by exact
  rational arithmetic (`ℚ`), and `round(x, 2)` by `round2`;
* the Deta Base store is modelled as a list of saved records with
  cursor-paginated reads of page size 1000;
* `datetime.now(timezone.utc)` is modelled by an explicit `DateTime`
  parameter rendered with `DateTime.isoformat`, following
  `datetime.isoformat()` for a UTC-aware value.
-/

/-- A JSON value, the possible results of `json.loads`. -/
inductive JsonVal where
  | null : JsonVal
  | bool : Bool → JsonVal
  | num : ℚ → JsonVal
  | str : String → JsonVal
  | arr : List JsonVal → JsonVal
  | obj : List (String × JsonVal) → JsonVal

/-- Python `d.get(k)` / `d.get(k, default)` on a parsed JSON value: succeeds
with the looked-up value (`none` when the key is absent) on a JSON object, and
raises `AttributeError` on any other JSON value, as Python does. -/
def jsonGet (j : JsonVal) (k : String) : Except String (Option JsonVal) :=
  match j with
  | JsonVal.obj kvs => Except.ok (kvs.lookup k)
  | _ => Except.error "AttributeError"

/-- `class Contesto(BaseModel)` from `main.py`. -/
structure Contesto where
  dominio : String
  luogo : Option String
  dispositivo : Option String
  progetti_paralleli : Option Int
deriving DecidableEq

/-- `class StatoInterno(BaseModel)` from `main.py`. -/
structure StatoInterno where
  energia : Int
  stress : Int
  umore : String
  note_soggettive : Option String
deriving DecidableEq

/-- `class EventInput(BaseModel)` from `main.py`. -/
structure EventInput where
  titolo : String
  descrizione : String
  tipo : String
  contesto : Contesto
  stato_interno : StatoInterno
deriving DecidableEq

/-- The `outcome` sub-record built in `log_event`. -/
structure Outcome where
  compilato : Bool
  dopo_giorni : Option Int
  risultato : Option String
  tempo_speso : Option Int
  soldi_spesi : Option Int
  decisione_corretta : Option Bool
  note_post_mortem : Option String
deriving DecidableEq

/-- The all-null outcome record `log_event` writes. -/
def freshOutcome : Outcome :=
  ⟨false, none, none, none, none, none, none⟩

/-- The full event record stored by `log_event` (`full_event` in the source).
The three extractor-derived fields keep their raw JSON values, exactly as the
Python dict stores whatever `patterns.get(...)` returned. -/
structure FullEvent where
  timestamp : String
  tipo : String
  titolo : String
  descrizione : String
  contesto : Contesto
  stato_interno : StatoInterno
  outcome : Outcome
  pattern_rilevati : JsonVal
  decisione_suggerita : JsonVal
  warning : JsonVal

/-- A record as returned by `events_db.put`: the stored data plus the
store-generated `key`. -/
structure SavedEvent where
  key : String
  data : FullEvent

/-- The response body of `POST /event`. -/
structure LogResponse where
  status : String
  id : String
  event : SavedEvent

/-- The fallback dict `extract_patterns` substitutes when `json.loads` raises. -/
def fallbackData : JsonVal :=
  JsonVal.obj
    [ ("pattern_rilevati", JsonVal.arr [])
    , ("decisione_suggerita", JsonVal.null)
    , ("warning", JsonVal.str "LLM_output_non_parsable") ]

/-- `extract_patterns` from `main.py`, as a function of the outcome of
`json.loads` on the model reply (`none` = parse failure). The prompt build and
the network call are external effects outside the embedding. -/
def extract_patterns (parsed : Option JsonVal) : JsonVal :=
  match parsed with
  | some data => data
  | none => fallbackData

/-- The three extractor-derived fields merged into `full_event`. -/
structure MergedFields where
  pattern_rilevati : JsonVal
  decisione_suggerita : JsonVal
  warning : JsonVal

/-- The three `patterns.get(...)` accesses in `log_event`:
`patterns.get("pattern_rilevati", [])` defaults to the empty list, the other
two (no default argument) default to `None`. Raises when `patterns` is not a
JSON object. -/
def mergeFields (patterns : JsonVal) : Except String MergedFields := do
  let pr ← jsonGet patterns "pattern_rilevati"
  let ds ← jsonGet patterns "decisione_suggerita"
  let w ← jsonGet patterns "warning"
  Except.ok ⟨pr.getD (JsonVal.arr []), ds.getD JsonVal.null, w.getD JsonVal.null⟩

/-- `events_db.put(full_event)`: append the record with a store-generated key
and return the saved record. The key is a parameter of the embedding. -/
def dbPut (db : List SavedEvent) (e : FullEvent) (key : String) :
    List SavedEvent × SavedEvent :=
  (db ++ [⟨key, e⟩], ⟨key, e⟩)

/-- `log_event` from `main.py`: build `base_event` with the current timestamp
and a fresh outcome, run the extractor, merge its three fields, store the
record, and answer with status, key and the saved record. `now` is the
rendered `datetime.now(timezone.utc).isoformat()`, `parsed` the outcome of
`json.loads` on the model reply, `key` the store-generated key. -/
def log_event (now : String) (parsed : Option JsonVal) (input : EventInput)
    (db : List SavedEvent) (key : String) :
    Except String (LogResponse × List SavedEvent) :=
  match mergeFields (extract_patterns parsed) with
  | Except.error e => Except.error e
  | Except.ok m =>
    let full : FullEvent :=
      ⟨now, input.tipo, input.titolo, input.descrizione, input.contesto,
        input.stato_interno, freshOutcome,
        m.pattern_rilevati, m.decisione_suggerita, m.warning⟩
    let saved := dbPut db full key
    Except.ok (⟨"ok", saved.2.key, saved.2⟩, saved.1)

/-- Deta Base pages are bounded; the hosted store serves at most 1000 items
per `fetch` call. -/
def PAGE_SIZE : Nat := 1000

/-- One `events_db.fetch(last=start)` call: a bounded page of stored events
plus the continuation cursor, `none` when the scan is exhausted. -/
def fetchPage (db : List SavedEvent) (start : Nat) :
    List SavedEvent × Option Nat :=
  ((db.drop start).take PAGE_SIZE,
    if start + PAGE_SIZE < db.length then some (start + PAGE_SIZE) else none)

/-- The `while res.last` loop of `load_all_events`, accumulating pages from
cursor `start` until the cursor is exhausted. -/
def loadFrom (db : List SavedEvent) (start : Nat) : List SavedEvent :=
  if start + PAGE_SIZE < db.length then
    (db.drop start).take PAGE_SIZE ++ loadFrom db (start + PAGE_SIZE)
  else
    (db.drop start).take PAGE_SIZE
termination_by db.length - start
decreasing_by simp only [PAGE_SIZE] at *; omega

/-- `load_all_events` from `main.py`: first fetch, then extend while a cursor
remains. -/
def load_all_events (db : List SavedEvent) : List SavedEvent :=
  loadFrom db 0

/-- A UTC wall-clock instant as Python `datetime.now(timezone.utc)` yields it. -/
structure DateTime where
  year : Nat
  month : Nat
  day : Nat
  hour : Nat
  minute : Nat
  second : Nat
  microsecond : Nat
deriving DecidableEq

/-- Field ranges of a Python `datetime` value. -/
def DateTime.Valid (t : DateTime) : Prop :=
  1 ≤ t.year ∧ t.year ≤ 9999 ∧ 1 ≤ t.month ∧ t.month ≤ 12 ∧
  1 ≤ t.day ∧ t.day ≤ 31 ∧ t.hour ≤ 23 ∧ t.minute ≤ 59 ∧
  t.second ≤ 59 ∧ t.microsecond ≤ 999999

instance (t : DateTime) : Decidable t.Valid := by
  unfold DateTime.Valid; infer_instance

/-- Mixed-radix key giving the chronological order of instants. -/
def DateTime.toKey (t : DateTime) : Nat :=
  ((((t.year * 13 + t.month) * 32 + t.day) * 24 + t.hour) * 60 + t.minute)
    * 60000000 + t.second * 1000000 + t.microsecond

/-- Two-digit zero-padded decimal rendering (`%02d`). -/
def pad2 (n : Nat) : List Char :=
  [Nat.digitChar (n / 10), Nat.digitChar (n % 10)]

/-- Four-digit zero-padded decimal rendering (`%04d`). -/
def pad4 (n : Nat) : List Char :=
  [Nat.digitChar (n / 1000), Nat.digitChar (n / 100 % 10),
    Nat.digitChar (n / 10 % 10), Nat.digitChar (n % 10)]

/-- Six-digit zero-padded decimal rendering (`%06d`). -/
def pad6 (n : Nat) : List Char :=
  [Nat.digitChar (n / 100000), Nat.digitChar (n / 10000 % 10),
    Nat.digitChar (n / 1000 % 10), Nat.digitChar (n / 100 % 10),
    Nat.digitChar (n / 10 % 10), Nat.digitChar (n % 10)]

/-- `datetime.isoformat()` on a UTC-aware value:
`YYYY-MM-DDTHH:MM:SS[.ffffff]+00:00`, the fractional part omitted when the
microsecond field is zero. -/
def DateTime.isoformatL (t : DateTime) : List Char :=
  pad4 t.year ++ ['-'] ++ pad2 t.month ++ ['-'] ++ pad2 t.day ++ ['T'] ++
    pad2 t.hour ++ [':'] ++ pad2 t.minute ++ [':'] ++ pad2 t.second ++
    (if t.microsecond = 0 then [] else ['.'] ++ pad6 t.microsecond) ++
    ['+', '0', '0', ':', '0', '0']

/-- String form of `DateTime.isoformatL`. -/
def DateTime.isoformat (t : DateTime) : String :=
  String.mk t.isoformatL

/-- Decimal digit test on a character. -/
def isDigitCh (c : Char) : Bool :=
  48 ≤ c.toNat && c.toNat ≤ 57

/-- Numeric value of two decimal digit characters. -/
def val2 (c1 c2 : Char) : Nat :=
  (c1.toNat - 48) * 10 + (c2.toNat - 48)

/-- Checker for the `+00:00` UTC offset suffix. -/
def checkOffset : List Char → Bool
  | [p, z1, z2, c, z3, z4] =>
    decide (p = '+') && decide (z1 = '0') && decide (z2 = '0') &&
    decide (c = ':') && decide (z3 = '0') && decide (z4 = '0')
  | _ => false

/-- Checker for a 6-digit fractional-second part followed by the UTC offset. -/
def checkFrac : List Char → Bool
  | dot :: u1 :: u2 :: u3 :: u4 :: u5 :: u6 :: rest =>
    decide (dot = '.') && isDigitCh u1 && isDigitCh u2 && isDigitCh u3 &&
    isDigitCh u4 && isDigitCh u5 && isDigitCh u6 && checkOffset rest
  | _ => false

/-- Checker for an ISO-8601 extended-format UTC instant as produced for a
timezone-aware UTC datetime: `YYYY-MM-DDTHH:MM:SS`, an optional 6-digit
fraction, and the `+00:00` offset, with the calendar fields in range. -/
def checkISO : List Char → Bool
  | y1 :: y2 :: y3 :: y4 :: sep1 :: m1 :: m2 :: sep2 :: d1 :: d2 :: sepT ::
      h1 :: h2 :: c1 :: n1 :: n2 :: c2 :: s1 :: s2 :: rest =>
    decide (sep1 = '-') && decide (sep2 = '-') && decide (sepT = 'T') &&
    decide (c1 = ':') && decide (c2 = ':') &&
    isDigitCh y1 && isDigitCh y2 && isDigitCh y3 && isDigitCh y4 &&
    isDigitCh m1 && isDigitCh m2 && isDigitCh d1 && isDigitCh d2 &&
    isDigitCh h1 && isDigitCh h2 && isDigitCh n1 && isDigitCh n2 &&
    isDigitCh s1 && isDigitCh s2 &&
    decide (1 ≤ val2 m1 m2) && decide (val2 m1 m2 ≤ 12) &&
    decide (1 ≤ val2 d1 d2) && decide (val2 d1 d2 ≤ 31) &&
    decide (val2 h1 h2 ≤ 23) && decide (val2 n1 n2 ≤ 59) &&
    decide (val2 s1 s2 ≤ 59) &&
    (checkOffset rest || checkFrac rest)
  | _ => false

/-- A string is a valid ISO-8601 UTC instant when the checker accepts it. -/
def isValidISO8601UTC (s : String) : Bool :=
  checkISO s.data

/-- The fields of a stored event the two aggregation endpoints read:
`e.get("pattern_rilevati", [])` (absent key folded into the empty list) and
`e.get("stato_interno", {}).get("energia", 3)` (`none` = field absent,
defaulted to 3 at the read site exactly as in the source). -/
structure AggEvent where
  pattern_rilevati : List String
  energia : Option Int

/-- A `collections.Counter` over keys `α`: an association list in first-seen
key order, as Python dicts preserve insertion order. -/
abbrev CounterL (α : Type) := List (α × Nat)

/-- `counter[k] += 1`: bump an existing key in place, or append the new key
with count 1. -/
def incr {α : Type} [DecidableEq α] (c : CounterL α) (k : α) : CounterL α :=
  match c with
  | [] => [(k, 1)]
  | (k0, v) :: rest => if k0 = k then (k0, v + 1) :: rest else (k0, v) :: incr rest k

/-- `counter[k]` as a read: 0 for a key never incremented. -/
def clookup {α : Type} [DecidableEq α] (c : CounterL α) (k : α) : Nat :=
  match c with
  | [] => 0
  | (k0, v) :: rest => if k0 = k then v else clookup rest k

/-- The `pattern_counter` loop of `regina_overview`: every occurrence in every
event bumps the count, with no per-event deduplication. -/
def pattern_counter (events : List AggEvent) : CounterL String :=
  events.foldl (fun c e => e.pattern_rilevati.foldl incr c) []

/-- `Counter.most_common(10)`: entries sorted by descending count (stable on
ties) and truncated to the ten largest. -/
def most_common10 (c : CounterL String) : CounterL String :=
  (c.mergeSort (fun a b => b.2 ≤ a.2)).take 10

/-- One `{"nome": ..., "conteggio": ...}` entry of `pattern_top`. -/
structure TopPattern where
  nome : String
  conteggio : Nat
deriving DecidableEq

/-- The advisory string appended by `regina_overview`. -/
def lowEnergyAdvisory : String :=
  "Hai preso diverse decisioni con energia molto bassa. Rivedi quelle più critiche."

/-- The `/regina/overview` response body. -/
structure Overview where
  totale_eventi : Nat
  pattern_top : List TopPattern
  warning_correnti : List String
deriving DecidableEq

/-- `regina_overview` from `main.py`: load the events, tally raw pattern
occurrences, keep the ten most common, and append the low-energy advisory when
at least three events have energy at most 2 (absent energy read as 3). -/
def regina_overview (events : List AggEvent) : Overview :=
  let pc := pattern_counter events
  let top_patterns := (most_common10 pc).map (fun x => TopPattern.mk x.1 x.2)
  let low_energy_events := events.filter (fun e => e.energia.getD 3 ≤ 2)
  let warnings := if 3 ≤ low_energy_events.length then [lowEnergyAdvisory] else []
  ⟨events.length, top_patterns, warnings⟩

/-- `list(set(...))` followed by `sorted(...)`: the distinct patterns of an
event in increasing lexicographic order. Python set iteration order is
unspecified; it only feeds counters, whose contents do not depend on it, so
the sorted order also stands in for the set order in the frequency loop. -/
def distinctSorted (l : List String) : List String :=
  l.dedup.mergeSort (fun a b => a ≤ b)

/-- `itertools.combinations(l, 2)`: every pair of positions in order. -/
def pairsOf : List String → List (String × String)
  | [] => []
  | x :: xs => xs.map (fun y => (x, y)) ++ pairsOf xs

/-- The per-event body of the counting loop in `regina_alerts`: bump each
distinct pattern in the frequency counter and each combination of two distinct
patterns (in sorted order) in the pair counter. -/
def alertStep (st : CounterL (String × String) × CounterL String)
    (e : AggEvent) : CounterL (String × String) × CounterL String :=
  let patterns := distinctSorted e.pattern_rilevati
  (let fc := patterns.foldl incr st.2
   let pc := (pairsOf patterns).foldl incr st.1
   (pc, fc))

/-- The two counters `(pair_counter, pattern_freq)` after the loop over all
events in `regina_alerts`. -/
def alertCounters (events : List AggEvent) :
    CounterL (String × String) × CounterL String :=
  events.foldl alertStep ([], [])

/-- Python `round(x, 2)` on the significance ratio, over exact rationals. -/
def round2 (q : ℚ) : ℚ :=
  (round (q * 100) : ℤ) / 100

/-- One entry of the `sincronicita` list. -/
structure Sincro where
  pattern_a : String
  pattern_b : String
  significance : ℚ
  interpretazione : String
deriving DecidableEq

/-- The fixed interpretation string of every reported pair. -/
def interpretazioneStr : String :=
  "Questi pattern emergono insieme più del caso."

/-- The fixed note of the alerts response. -/
def alertsNote : String :=
  "Versione semplificata. Sufficiente per iniziare a vedere co-occorrenze."

/-- The expected co-occurrence `(freq[a]/T) * (freq[b]/T) * T` computed for a
pair in `regina_alerts`, with `T = max(len(events), 1)`. -/
def expectedOf (fc : CounterL String) (T : ℚ) (a b : String) : ℚ :=
  ((clookup fc a : ℚ) / T) * ((clookup fc b : ℚ) / T) * T

/-- The body of the reporting loop in `regina_alerts`: one pair-counter entry
is kept when `expected > 0 and count > expected * 2`, carrying significance
`round(count / expected, 2)` and the fixed interpretation string. -/
def sincroOf (fc : CounterL String) (T : ℚ)
    (entry : (String × String) × Nat) : Option Sincro :=
  if 0 < expectedOf fc T entry.1.1 entry.1.2 ∧
      expectedOf fc T entry.1.1 entry.1.2 * 2 < (entry.2 : ℚ) then
    some ⟨entry.1.1, entry.1.2,
      round2 ((entry.2 : ℚ) / expectedOf fc T entry.1.1 entry.1.2),
      interpretazioneStr⟩
  else none

/-- `regina_alerts` from `main.py`: count per-event distinct patterns and
pairs, then report every pair whose count exceeds twice the expected
co-occurrence, with significance `round(count / expected, 2)`. -/
def regina_alerts (events : List AggEvent) : List Sincro × String :=
  let counters := alertCounters events
  let total_events : ℚ := (max events.length 1 : Nat)
  (counters.1.filterMap (sincroOf counters.2 total_events), alertsNote)

/-- Occurrence count by decidable equality, the counting notion used to relate
counters to raw lists. -/
def ccount {α : Type} [DecidableEq α] (l : List α) (k : α) : Nat :=
  l.countP (fun x => decide (x = k))

theorem ccount_nil {α : Type} [DecidableEq α] (k : α) : ccount ([] : List α) k = 0 := rfl

theorem ccount_cons {α : Type} [DecidableEq α] (x : α) (l : List α) (k : α) :
    ccount (x :: l) k = ccount l k + (if x = k then 1 else 0) := by
  simp [ccount, List.countP_cons]

theorem ccount_append {α : Type} [DecidableEq α] (l1 l2 : List α) (k : α) :
    ccount (l1 ++ l2) k = ccount l1 k + ccount l2 k := by
  simp [ccount, List.countP_append]

theorem ccount_eq_zero {α : Type} [DecidableEq α] {l : List α} {k : α}
    (h : k ∉ l) : ccount l k = 0 := by
  simp only [ccount, List.countP_eq_zero]
  intro a ha
  simp only [decide_eq_true_eq]
  intro rfl_eq
  exact h (rfl_eq ▸ ha)

theorem ccount_nodup {α : Type} [DecidableEq α] {l : List α} (hn : l.Nodup) (k : α) :
    ccount l k = if k ∈ l then 1 else 0 := by
  induction l with
  | nil => simp [ccount_nil]
  | cons x xs ih =>
    rcases List.nodup_cons.mp hn with ⟨hx, hxs⟩
    rw [ccount_cons, ih hxs]
    by_cases hxk : x = k
    · subst hxk
      simp [hx]
    · simp only [List.mem_cons]
      by_cases hk : k ∈ xs <;> simp [hxk, hk, Ne.symm hxk]

theorem clookup_incr {α : Type} [DecidableEq α] (c : CounterL α) (k p : α) :
    clookup (incr c k) p = clookup c p + (if k = p then 1 else 0) := by
  induction c with
  | nil =>
    by_cases h : k = p <;> simp [incr, clookup, h]
  | cons kv rest ih =>
    obtain ⟨k0, v⟩ := kv
    by_cases h0 : k0 = k
    · subst h0
      by_cases hp : k0 = p <;> simp [incr, clookup, hp]
    · by_cases hp : k0 = p
      · subst hp
        have : ¬ k = k0 := fun h => h0 h.symm
        simp [incr, clookup, h0, this]
      · simp [incr, clookup, h0, hp, ih]

theorem clookup_foldl_incr {α : Type} [DecidableEq α] (l : List α) (c : CounterL α) (p : α) :
    clookup (l.foldl incr c) p = clookup c p + ccount l p := by
  induction l generalizing c with
  | nil => simp [ccount_nil]
  | cons x xs ih =>
    rw [List.foldl_cons, ih, clookup_incr, ccount_cons]
    by_cases h : x = p
    · simp only [if_pos h]
      omega
    · simp only [if_neg h]
      omega

theorem mem_of_clookup_ne_zero {α : Type} [DecidableEq α] {c : CounterL α} {k : α}
    (h : clookup c k ≠ 0) : (k, clookup c k) ∈ c := by
  induction c with
  | nil => simp [clookup] at h
  | cons kv rest ih =>
    obtain ⟨k0, v⟩ := kv
    by_cases h0 : k0 = k
    · subst h0
      simp [clookup]
    · simp only [clookup, if_neg h0] at h ⊢
      simp [if_neg h0, ih h]

/-- Key list of a counter. -/
def ckeys {α : Type} (c : CounterL α) : List α := c.map Prod.fst

theorem ckeys_incr {α : Type} [DecidableEq α] (c : CounterL α) (k : α) :
    ckeys (incr c k) = if k ∈ ckeys c then ckeys c else ckeys c ++ [k] := by
  induction c with
  | nil => simp [incr, ckeys]
  | cons kv rest ih =>
    obtain ⟨k0, v⟩ := kv
    by_cases h0 : k0 = k
    · subst h0
      simp [incr, ckeys]
    · have hne : ¬ k = k0 := fun h => h0 h.symm
      simp only [incr, if_neg h0, ckeys, List.map_cons] at ih ⊢
      rw [ih]
      by_cases hk : k ∈ List.map Prod.fst rest <;>
        simp [hk, hne]

theorem clookup_eq_of_mem {α : Type} [DecidableEq α] {c : CounterL α} {k : α} {v : Nat}
    (hnd : (ckeys c).Nodup) (hm : (k, v) ∈ c) : clookup c k = v := by
  induction c with
  | nil => simp at hm
  | cons kv rest ih =>
    obtain ⟨k0, v0⟩ := kv
    simp only [ckeys, List.map_cons, List.nodup_cons] at hnd
    rcases List.mem_cons.mp hm with h | h
    · obtain ⟨h1, h2⟩ := Prod.mk.injEq .. ▸ h
      injection h with h1 h2
      subst h1; subst h2
      simp [clookup]
    · by_cases h0 : k0 = k
      · subst h0
        exact absurd (List.mem_map_of_mem Prod.fst h) hnd.1
      · simpa [clookup, if_neg h0] using ih hnd.2 h

theorem mem_incr {α : Type} [DecidableEq α] {c : CounterL α} {k : α} {kv : α × Nat}
    (h : kv ∈ incr c k) : kv.1 ∈ ckeys c ∨ kv.1 = k := by
  induction c with
  | nil =>
    simp [incr] at h
    simp [h]
  | cons kv0 rest ih =>
    obtain ⟨k0, v0⟩ := kv0
    by_cases h0 : k0 = k
    · subst h0
      simp only [incr, if_pos rfl] at h
      rcases List.mem_cons.mp h with h | h
      · left; simp [ckeys, h]
      · left; simp only [ckeys, List.map_cons, List.mem_cons]
        right
        exact List.mem_map_of_mem Prod.fst h
    · simp only [incr, if_neg h0] at h
      rcases List.mem_cons.mp h with h | h
      · left; simp [ckeys, h]
      · rcases ih h with h | h
        · left; simp only [ckeys, List.map_cons, List.mem_cons]; right; exact h
        · right; exact h

theorem mem_distinctSorted {l : List String} {p : String} :
    p ∈ distinctSorted l ↔ p ∈ l := by
  simp [distinctSorted, List.mem_mergeSort, List.mem_dedup]

theorem nodup_distinctSorted (l : List String) : (distinctSorted l).Nodup := by
  unfold distinctSorted
  exact ((List.mergeSort_perm l.dedup _).nodup_iff).mpr (List.nodup_dedup l)

theorem sorted_le_distinctSorted (l : List String) :
    (distinctSorted l).Sorted (· ≤ ·) := by
  unfold distinctSorted
  have h := @List.sorted_mergeSort String (fun a b : String => decide (a ≤ b))
    (fun a b c hab hbc => by
      simp only [decide_eq_true_eq] at *
      exact le_trans hab hbc)
    (fun a b => by
      simp only [Bool.or_eq_true, decide_eq_true_eq]
      exact le_total a b)
    l.dedup
  exact h.imp (fun hab => by simpa using hab)

theorem sorted_lt_distinctSorted (l : List String) :
    (distinctSorted l).Sorted (· < ·) := by
  exact (sorted_le_distinctSorted l).lt_of_le (nodup_distinctSorted l)

theorem ccount_distinctSorted (l : List String) (p : String) :
    ccount (distinctSorted l) p = if p ∈ l then 1 else 0 := by
  rw [ccount_nodup (nodup_distinctSorted l)]
  by_cases h : p ∈ l <;> simp [mem_distinctSorted, h]

theorem mem_pairsOf {l : List String} {ab : String × String} :
    ab ∈ pairsOf l → ab.1 ∈ l ∧ ab.2 ∈ l := by
  induction l with
  | nil => simp [pairsOf]
  | cons x xs ih =>
    intro h
    rw [pairsOf, List.mem_append] at h
    rcases h with h | h
    · rcases List.mem_map.mp h with ⟨y, hy, hxy⟩
      subst hxy
      exact ⟨List.mem_cons_self x xs, List.mem_cons_of_mem x hy⟩
    · exact ⟨List.mem_cons_of_mem x (ih h).1, List.mem_cons_of_mem x (ih h).2⟩

theorem fst_lt_snd_of_mem_pairsOf {l : List String} (hs : l.Sorted (· < ·))
    {ab : String × String} (h : ab ∈ pairsOf l) : ab.1 < ab.2 := by
  induction l with
  | nil => simp [pairsOf] at h
  | cons x xs ih =>
    rw [pairsOf, List.mem_append] at h
    rcases h with h | h
    · rcases List.mem_map.mp h with ⟨y, hy, hxy⟩
      subst hxy
      exact List.rel_of_sorted_cons hs y hy
    · exact ih (List.sorted_cons.mp hs).2 h

theorem ccount_pairsOf {l : List String} (hs : l.Sorted (· < ·)) (a b : String) :
    ccount (pairsOf l) (a, b) = if a ∈ l ∧ b ∈ l ∧ a < b then 1 else 0 := by
  induction l with
  | nil => simp [pairsOf, ccount_nil]
  | cons x xs ih =>
    have hrel : ∀ y ∈ xs, x < y := List.rel_of_sorted_cons hs
    have hxs : xs.Sorted (· < ·) := (List.sorted_cons.mp hs).2
    have hxnotmem : x ∉ xs := fun hmem => lt_irrefl x (hrel x hmem)
    rw [pairsOf, ccount_append, ih hxs]
    have hmap : ccount (xs.map (fun y => (x, y))) (a, b) =
        if x = a then ccount xs b else 0 := by
      by_cases hxa : x = a
      · subst hxa
        simp only [ccount, List.countP_map, if_pos rfl]
        apply List.countP_congr
        intro y _
        simp [Function.comp, Prod.ext_iff]
      · simp only [ccount, List.countP_map, if_neg hxa]
        rw [List.countP_eq_zero]
        intro y _
        simp [Function.comp, Prod.ext_iff, hxa]
    rw [hmap]
    by_cases hxa : x = a
    · subst hxa
      have hanotin : ¬ (x ∈ xs ∧ b ∈ xs ∧ x < b) := fun ⟨hx, _, _⟩ => hxnotmem hx
      rw [if_neg hanotin, ccount_nodup hxs.nodup, if_pos rfl]
      by_cases hb : b ∈ xs
      · have hxb : x < b := hrel b hb
        simp [hb, hxb]
      · have hno : ¬ (x ∈ x :: xs ∧ b ∈ x :: xs ∧ x < b) := by
          rintro ⟨-, hbmem, hxb⟩
          rcases List.mem_cons.mp hbmem with h | h
          · exact absurd (h ▸ hxb) (lt_irrefl x)
          · exact hb h
        rw [if_neg hb, if_neg hno]
    · rw [if_neg hxa, Nat.zero_add]
      congr 1
      simp only [List.mem_cons, eq_iff_iff]
      constructor
      · rintro ⟨ha, hb, hab⟩
        exact ⟨Or.inr ha, Or.inr hb, hab⟩
      · rintro ⟨ha, hb, hab⟩
        rcases ha with ha | ha
        · exact absurd ha.symm hxa
        · rcases hb with hb | hb
          · exact absurd (hab.trans (hb ▸ hrel a ha)) (lt_irrefl a)
          · exact ⟨ha, hb, hab⟩

theorem alertStep_freq (st : CounterL (String × String) × CounterL String)
    (e : AggEvent) (p : String) :
    clookup (alertStep st e).2 p =
      clookup st.2 p + (if p ∈ e.pattern_rilevati then 1 else 0) := by
  show clookup ((distinctSorted e.pattern_rilevati).foldl incr st.2) p = _
  rw [clookup_foldl_incr, ccount_distinctSorted]

theorem alertStep_pair (st : CounterL (String × String) × CounterL String)
    (e : AggEvent) (a b : String) (hab : a < b) :
    clookup (alertStep st e).1 (a, b) =
      clookup st.1 (a, b) +
        (if a ∈ e.pattern_rilevati ∧ b ∈ e.pattern_rilevati then 1 else 0) := by
  show clookup ((pairsOf (distinctSorted e.pattern_rilevati)).foldl incr st.1) (a, b) = _
  rw [clookup_foldl_incr,
    ccount_pairsOf (sorted_lt_distinctSorted e.pattern_rilevati)]
  simp only [mem_distinctSorted]
  by_cases ha : a ∈ e.pattern_rilevati
  · by_cases hb : b ∈ e.pattern_rilevati
    · simp [ha, hb, hab]
    · simp [ha, hb]
  · simp [ha]

theorem alertCounters_freq (events : List AggEvent) (p : String) :
    clookup (alertCounters events).2 p =
      events.countP (fun e => decide (p ∈ e.pattern_rilevati)) := by
  suffices h : ∀ (l : List AggEvent) (st : CounterL (String × String) × CounterL String),
      clookup (l.foldl alertStep st).2 p =
        clookup st.2 p + l.countP (fun e => decide (p ∈ e.pattern_rilevati)) by
    simpa [alertCounters, clookup] using h events ([], [])
  intro l
  induction l with
  | nil => simp
  | cons e es ih =>
    intro st
    rw [List.foldl_cons, ih, alertStep_freq, List.countP_cons]
    by_cases hp : p ∈ e.pattern_rilevati
    · rw [if_pos hp, if_pos (decide_eq_true hp)]
      omega
    · rw [if_neg hp, if_neg (fun h => hp (of_decide_eq_true h))]
      omega

theorem alertCounters_pair (events : List AggEvent) (a b : String) (hab : a < b) :
    clookup (alertCounters events).1 (a, b) =
      events.countP
        (fun e => decide (a ∈ e.pattern_rilevati ∧ b ∈ e.pattern_rilevati)) := by
  suffices h : ∀ (l : List AggEvent) (st : CounterL (String × String) × CounterL String),
      clookup (l.foldl alertStep st).1 (a, b) =
        clookup st.1 (a, b) +
          l.countP (fun e => decide (a ∈ e.pattern_rilevati ∧ b ∈ e.pattern_rilevati)) by
    simpa [alertCounters, clookup] using h events ([], [])
  intro l
  induction l with
  | nil => simp
  | cons e es ih =>
    intro st
    rw [List.foldl_cons, ih, alertStep_pair _ e a b hab, List.countP_cons]
    by_cases hp : a ∈ e.pattern_rilevati ∧ b ∈ e.pattern_rilevati
    · rw [if_pos hp, if_pos (decide_eq_true hp)]
      omega
    · rw [if_neg hp, if_neg (fun h => hp (of_decide_eq_true h))]
      omega

/-- Every key of the pair counter is a strictly increasing pair: pairs are
inserted only as combinations of a strictly sorted pattern list. -/
theorem alertCounters_pair_keys_lt (events : List AggEvent) :
    ∀ kv ∈ (alertCounters events).1, kv.1.1 < kv.1.2 := by
  suffices h : ∀ (l : List AggEvent) (st : CounterL (String × String) × CounterL String),
      (∀ kv ∈ st.1, kv.1.1 < kv.1.2) → ∀ kv ∈ (l.foldl alertStep st).1, kv.1.1 < kv.1.2 by
    intro kv hkv
    exact h events ([], []) (by simp) kv hkv
  intro l
  induction l with
  | nil => intro st hst; simpa using hst
  | cons e es ih =>
    intro st hst
    rw [List.foldl_cons]
    apply ih
    have hsorted := sorted_lt_distinctSorted e.pattern_rilevati
    suffices hstep : ∀ (ps : List (String × String)) (pc : CounterL (String × String)),
        (∀ ab ∈ ps, ab.1 < ab.2) → (∀ kv ∈ pc, kv.1.1 < kv.1.2) →
        ∀ kv ∈ ps.foldl incr pc, kv.1.1 < kv.1.2 by
      apply hstep
      · intro ab hab
        exact fst_lt_snd_of_mem_pairsOf hsorted hab
      · exact hst
    intro ps
    induction ps with
    | nil => intro pc _ hpc; simpa using hpc
    | cons q qs ihq =>
      intro pc hps hpc
      rw [List.foldl_cons]
      apply ihq
      · intro ab hab
        exact hps ab (List.mem_cons_of_mem q hab)
      · intro kv hkv
        rcases mem_incr hkv with hk | hk
        · rcases List.mem_map.mp hk with ⟨kv0, hkv0, hfst⟩
          have := hpc kv0 hkv0
          exact hfst ▸ this
        · rw [hk]
          exact hps q (List.mem_cons_self q qs)

/-- The keys of the pair counter stay distinct across the whole fold. -/
theorem alertCounters_pair_nodup (events : List AggEvent) :
    (ckeys (alertCounters events).1).Nodup := by
  suffices h : ∀ (l : List AggEvent) (st : CounterL (String × String) × CounterL String),
      (ckeys st.1).Nodup → (ckeys (l.foldl alertStep st).1).Nodup by
    exact h events ([], []) (by simp [ckeys])
  intro l
  induction l with
  | nil => intro st hst; simpa using hst
  | cons e es ih =>
    intro st hst
    rw [List.foldl_cons]
    apply ih
    suffices hstep : ∀ (ps : List (String × String)) (pc : CounterL (String × String)),
        (ckeys pc).Nodup → (ckeys (ps.foldl incr pc)).Nodup by
      exact hstep _ _ hst
    intro ps
    induction ps with
    | nil => intro pc hpc; simpa using hpc
    | cons q qs ihq =>
      intro pc hpc
      rw [List.foldl_cons]
      apply ihq
      rw [ckeys_incr]
      by_cases hq : q ∈ ckeys pc
      · simpa [hq] using hpc
      · simp only [hq, if_false]
        simpa [List.nodup_append] using ⟨hpc, hq⟩

theorem loadFrom_eq (db : List SavedEvent) (start : Nat) :
    loadFrom db start = db.drop start := by
  have hp : 0 < PAGE_SIZE := by norm_num [PAGE_SIZE]
  suffices H : ∀ n s, db.length - s ≤ n → loadFrom db s = db.drop s from
    H (db.length - start) start le_rfl
  intro n
  induction n with
  | zero =>
    intro s hs
    rw [loadFrom, if_neg (by omega)]
    apply List.take_of_length_le
    rw [List.length_drop]
    omega
  | succ n ih =>
    intro s hs
    by_cases hlt : s + PAGE_SIZE < db.length
    · rw [loadFrom, if_pos hlt, ih (s + PAGE_SIZE) (by omega)]
      have hdrop : db.drop (s + PAGE_SIZE) = (db.drop s).drop PAGE_SIZE := by
        rw [List.drop_drop]
      rw [hdrop, List.take_append_drop]
    · rw [loadFrom, if_neg hlt]
      apply List.take_of_length_le
      rw [List.length_drop]
      omega

theorem load_all_events_eq (db : List SavedEvent) : load_all_events db = db := by
  rw [load_all_events, loadFrom_eq, List.drop_zero]

theorem toNat_digitChar (d : Nat) (h : d ≤ 9) :
    (Nat.digitChar d).toNat = 48 + d := by
  interval_cases d <;> rfl

theorem isDigitCh_digitChar (d : Nat) (h : d ≤ 9) :
    isDigitCh (Nat.digitChar d) = true := by
  interval_cases d <;> rfl

theorem val2_digitChar (a b : Nat) (ha : a ≤ 9) (hb : b ≤ 9) :
    val2 (Nat.digitChar a) (Nat.digitChar b) = a * 10 + b := by
  rw [val2, toNat_digitChar a ha, toNat_digitChar b hb]
  omega

theorem val2_pad2 (n : Nat) (h : n ≤ 99) :
    val2 (Nat.digitChar (n / 10)) (Nat.digitChar (n % 10)) = n := by
  rw [val2_digitChar _ _ (by omega) (by omega)]
  omega

theorem checkOffset_lit : checkOffset ['+', '0', '0', ':', '0', '0'] = true := rfl

theorem checkFrac_pad6 (u : Nat) (hu : u ≤ 999999) :
    checkFrac ('.' :: (pad6 u ++ ['+', '0', '0', ':', '0', '0'])) = true := by
  simp only [pad6, List.cons_append, List.nil_append, checkFrac,
    Bool.and_eq_true, decide_eq_true_eq]
  repeat' apply And.intro
  all_goals first
    | trivial
    | exact isDigitCh_digitChar _ (by omega)

theorem checkISO_isoformatL (t : DateTime) (h : t.Valid) :
    checkISO t.isoformatL = true := by
  obtain ⟨hy1, hy2, hm1, hm2, hd1, hd2, hh, hmi, hs, hu⟩ := h
  have hdig : ∀ d : Nat, d ≤ 9 → isDigitCh (Nat.digitChar d) = true :=
    isDigitCh_digitChar
  by_cases hmz : t.microsecond = 0
  · rw [DateTime.isoformatL, if_pos hmz]
    simp only [pad4, pad2, List.cons_append, List.nil_append, checkISO,
      Bool.and_eq_true, Bool.or_eq_true, decide_eq_true_eq]
    repeat' apply And.intro
    all_goals first
      | trivial
      | exact hdig _ (by omega)
      | (rw [val2_pad2 _ (by omega)]; omega)
  · rw [DateTime.isoformatL, if_neg hmz]
    simp only [pad4, pad2, List.cons_append, List.nil_append, checkISO,
      Bool.and_eq_true, Bool.or_eq_true, decide_eq_true_eq]
    repeat' apply And.intro
    all_goals first
      | trivial
      | exact hdig _ (by omega)
      | (rw [val2_pad2 _ (by omega)]; omega)
      | exact Or.inr (checkFrac_pad6 t.microsecond hu)

theorem isValidISO8601UTC_isoformat (t : DateTime) (h : t.Valid) :
    isValidISO8601UTC t.isoformat = true := by
  rw [isValidISO8601UTC, DateTime.isoformat]
  exact checkISO_isoformatL t h

/-- C2: for every ingestion request whose model-completion reply is not
parsable as JSON, the extractor does not raise and the stored event has
`pattern_rilevati = []`, `decisione_suggerita = null` and
`warning = "LLM_output_non_parsable"`. -/
theorem unparsable_reply_stores_fallback (now : String) (input : EventInput)
    (db : List SavedEvent) (key : String) :
    ∃ resp db2, log_event now none input db key = Except.ok (resp, db2) ∧
      resp.event.data.pattern_rilevati = JsonVal.arr [] ∧
      resp.event.data.decisione_suggerita = JsonVal.null ∧
      resp.event.data.warning = JsonVal.str "LLM_output_non_parsable" :=
  ⟨_, _, rfl, rfl, rfl, rfl⟩

/-- C7 counterexample: a reply that parses as valid JSON (the number 42) and
omits every expected key makes ingestion fail with an `AttributeError` instead
of storing defaulted fields: `patterns.get` is attribute access on a non-dict. -/
theorem nonobject_reply_fails_ingestion :
    log_event "2024-01-01T00:00:00+00:00" (some (JsonVal.num 42))
      ⟨"Titolo", "Descrizione", "decisione", ⟨"lavoro", none, none, none⟩,
        ⟨3, 3, "neutro", none⟩⟩ [] "evt1" = Except.error "AttributeError" := rfl

/-- C7 amended: for every model-completion reply that parses as a JSON object
and omits the expected keys, ingestion does not fail and the stored event
defaults `pattern_rilevati` to `[]` and `decisione_suggerita` / `warning` to
`null`. -/
theorem object_reply_missing_keys_default (now : String) (input : EventInput)
    (db : List SavedEvent) (key : String) (kvs : List (String × JsonVal))
    (h1 : kvs.lookup "pattern_rilevati" = none)
    (h2 : kvs.lookup "decisione_suggerita" = none)
    (h3 : kvs.lookup "warning" = none) :
    log_event now (some (JsonVal.obj kvs)) input db key =
      Except.ok
        (⟨"ok", key, ⟨key, ⟨now, input.tipo, input.titolo, input.descrizione,
            input.contesto, input.stato_interno, freshOutcome,
            JsonVal.arr [], JsonVal.null, JsonVal.null⟩⟩⟩,
          db ++ [⟨key, ⟨now, input.tipo, input.titolo, input.descrizione,
            input.contesto, input.stato_interno, freshOutcome,
            JsonVal.arr [], JsonVal.null, JsonVal.null⟩⟩]) := by
  have hm : mergeFields (JsonVal.obj kvs) =
      Except.ok ⟨JsonVal.arr [], JsonVal.null, JsonVal.null⟩ := by
    show Except.ok
        ⟨(kvs.lookup "pattern_rilevati").getD (JsonVal.arr []),
          (kvs.lookup "decisione_suggerita").getD JsonVal.null,
          (kvs.lookup "warning").getD JsonVal.null⟩ =
      (Except.ok ⟨JsonVal.arr [], JsonVal.null, JsonVal.null⟩ :
        Except String MergedFields)
    rw [h1, h2, h3]
    rfl
  show ((match mergeFields (extract_patterns (some (JsonVal.obj kvs))) with
    | Except.error e => Except.error e
    | Except.ok m =>
      Except.ok (⟨"ok", key, ⟨key, ⟨now, input.tipo, input.titolo,
          input.descrizione, input.contesto, input.stato_interno, freshOutcome,
          m.pattern_rilevati, m.decisione_suggerita, m.warning⟩⟩⟩,
        db ++ [⟨key, ⟨now, input.tipo, input.titolo, input.descrizione,
          input.contesto, input.stato_interno, freshOutcome,
          m.pattern_rilevati, m.decisione_suggerita, m.warning⟩⟩])) :
    Except String (LogResponse × List SavedEvent)) = _
  rw [show extract_patterns (some (JsonVal.obj kvs)) = JsonVal.obj kvs from rfl, hm]

theorem object_reply_missing_keys_default_witness :
    log_event "2024-01-01T00:00:00+00:00"
      (some (JsonVal.obj [("altro", JsonVal.bool true)]))
      ⟨"Titolo", "Descrizione", "decisione", ⟨"lavoro", none, none, none⟩,
        ⟨3, 3, "neutro", none⟩⟩ [] "evt1" =
      Except.ok
        (⟨"ok", "evt1", ⟨"evt1", ⟨"2024-01-01T00:00:00+00:00", "decisione",
            "Titolo", "Descrizione", ⟨"lavoro", none, none, none⟩,
            ⟨3, 3, "neutro", none⟩, freshOutcome,
            JsonVal.arr [], JsonVal.null, JsonVal.null⟩⟩⟩,
          [⟨"evt1", ⟨"2024-01-01T00:00:00+00:00", "decisione",
            "Titolo", "Descrizione", ⟨"lavoro", none, none, none⟩,
            ⟨3, 3, "neutro", none⟩, freshOutcome,
            JsonVal.arr [], JsonVal.null, JsonVal.null⟩⟩]) := by
  have h := object_reply_missing_keys_default "2024-01-01T00:00:00+00:00"
    ⟨"Titolo", "Descrizione", "decisione", ⟨"lavoro", none, none, none⟩,
      ⟨3, 3, "neutro", none⟩⟩ [] "evt1" [("altro", JsonVal.bool true)]
    rfl rfl rfl
  exact h

/-- C8: for every valid input, `POST /event` answers with a stored event whose
outcome sub-record has `compilato = false` and every other field null, and
whose timestamp is a valid ISO-8601 UTC instant no earlier than the receipt
time: the timestamp renders the `datetime.now(timezone.utc)` instant taken at
the start of the handler, which does not precede the receipt of the request. -/
theorem post_event_outcome_and_timestamp (input : EventInput)
    (parsed : Option JsonVal) (db : List SavedEvent) (key : String)
    (receipt now : DateTime) (hv : now.Valid)
    (hle : receipt.toKey ≤ now.toKey)
    (resp : LogResponse) (db2 : List SavedEvent)
    (hok : log_event now.isoformat parsed input db key = Except.ok (resp, db2)) :
    resp.event.data.outcome.compilato = false ∧
    resp.event.data.outcome.dopo_giorni = none ∧
    resp.event.data.outcome.risultato = none ∧
    resp.event.data.outcome.tempo_speso = none ∧
    resp.event.data.outcome.soldi_spesi = none ∧
    resp.event.data.outcome.decisione_corretta = none ∧
    resp.event.data.outcome.note_post_mortem = none ∧
    isValidISO8601UTC resp.event.data.timestamp = true ∧
    resp.event.data.timestamp = now.isoformat ∧
    receipt.toKey ≤ now.toKey := by
  cases hm : mergeFields (extract_patterns parsed) with
  | error e =>
    rw [log_event, hm] at hok
    cases hok
  | ok m =>
    rw [log_event, hm] at hok
    injection hok with hok
    injection hok with h1 h2
    subst h1
    exact ⟨rfl, rfl, rfl, rfl, rfl, rfl, rfl,
      isValidISO8601UTC_isoformat now hv, rfl, hle⟩

theorem post_event_outcome_and_timestamp_witness :
    (DateTime.Valid ⟨2024, 6, 15, 12, 30, 45, 123456⟩) ∧
    (DateTime.toKey ⟨2024, 6, 15, 12, 30, 44, 0⟩ ≤
      DateTime.toKey ⟨2024, 6, 15, 12, 30, 45, 123456⟩) ∧
    (isValidISO8601UTC (DateTime.isoformat ⟨2024, 6, 15, 12, 30, 45, 123456⟩) = true ∧
      DateTime.isoformat ⟨2024, 6, 15, 12, 30, 45, 123456⟩ =
        DateTime.isoformat ⟨2024, 6, 15, 12, 30, 45, 123456⟩) := by
  have h := post_event_outcome_and_timestamp
    ⟨"Titolo", "Descrizione", "decisione", ⟨"lavoro", none, none, none⟩,
      ⟨3, 3, "neutro", none⟩⟩ none [] "evt1"
    ⟨2024, 6, 15, 12, 30, 44, 0⟩ ⟨2024, 6, 15, 12, 30, 45, 123456⟩
    (by decide) (by decide) _ _ rfl
  exact ⟨by decide, by decide, h.2.2.2.2.2.2.2.1, h.2.2.2.2.2.2.2.2.1 ▸ rfl⟩

/-- C9: for every store state and every valid input, storing an event via
`log_event` and then fetching all events via `load_all_events` yields a set
containing that event, with all originally submitted fields unchanged. -/
theorem stored_event_round_trip (input : EventInput) (parsed : Option JsonVal)
    (db : List SavedEvent) (key now : String)
    (resp : LogResponse) (db2 : List SavedEvent)
    (hok : log_event now parsed input db key = Except.ok (resp, db2)) :
    resp.event ∈ load_all_events db2 ∧
    resp.event.data.tipo = input.tipo ∧
    resp.event.data.titolo = input.titolo ∧
    resp.event.data.descrizione = input.descrizione ∧
    resp.event.data.contesto = input.contesto ∧
    resp.event.data.stato_interno = input.stato_interno := by
  cases hm : mergeFields (extract_patterns parsed) with
  | error e =>
    rw [log_event, hm] at hok
    cases hok
  | ok m =>
    rw [log_event, hm] at hok
    injection hok with hok
    injection hok with h1 h2
    subst h1
    subst h2
    refine ⟨?_, rfl, rfl, rfl, rfl, rfl⟩
    rw [load_all_events_eq]
    exact List.mem_append_right db (List.mem_singleton_self _)

theorem stored_event_round_trip_witness :
    (⟨"evt1", ⟨"2024-01-01T00:00:00+00:00", "decisione", "Titolo",
        "Descrizione", ⟨"lavoro", none, none, none⟩, ⟨3, 3, "neutro", none⟩,
        freshOutcome, JsonVal.arr [], JsonVal.null,
        JsonVal.str "LLM_output_non_parsable"⟩⟩ : SavedEvent) ∈
      load_all_events
        [⟨"evt1", ⟨"2024-01-01T00:00:00+00:00", "decisione", "Titolo",
          "Descrizione", ⟨"lavoro", none, none, none⟩, ⟨3, 3, "neutro", none⟩,
          freshOutcome, JsonVal.arr [], JsonVal.null,
          JsonVal.str "LLM_output_non_parsable"⟩⟩] := by
  have h := stored_event_round_trip
    ⟨"Titolo", "Descrizione", "decisione", ⟨"lavoro", none, none, none⟩,
      ⟨3, 3, "neutro", none⟩⟩ none [] "evt1" "2024-01-01T00:00:00+00:00"
    _ _ rfl
  exact h.1

/-- C3: for every event list, `pattern_top` contains at most 10 entries and is
sorted in descending order of count. -/
theorem overview_top_bounded_and_sorted (events : List AggEvent) :
    (regina_overview events).pattern_top.length ≤ 10 ∧
    (regina_overview events).pattern_top.Sorted
      (fun x y => y.conteggio ≤ x.conteggio) := by
  constructor
  · show ((most_common10 (pattern_counter events)).map _).length ≤ 10
    rw [List.length_map, most_common10, List.length_take]
    exact min_le_left _ _
  · show ((most_common10 (pattern_counter events)).map _).Sorted _
    rw [List.Sorted, List.pairwise_map]
    apply List.Pairwise.sublist (List.take_sublist 10 _)
    have h := @List.sorted_mergeSort (String × Nat)
      (fun a b : String × Nat => decide (b.2 ≤ a.2))
      (fun a b c hab hbc => by
        simp only [decide_eq_true_eq] at *
        exact le_trans hbc hab)
      (fun a b => by
        simp only [Bool.or_eq_true, decide_eq_true_eq]
        exact le_total b.2 a.2)
      (pattern_counter events)
    exact h.imp (fun hab => by simpa using hab)

/-- C4: the overview warning list contains the fixed low-energy advisory
string if and only if at least 3 events have internal-state energy at most 2,
an event without the energy field counting as energy 3. -/
theorem overview_low_energy_warning_iff (events : List AggEvent) :
    lowEnergyAdvisory ∈ (regina_overview events).warning_correnti ↔
      3 ≤ events.countP (fun e => decide (e.energia.getD 3 ≤ 2)) := by
  show lowEnergyAdvisory ∈
      (if 3 ≤ (events.filter (fun e => e.energia.getD 3 ≤ 2)).length
        then [lowEnergyAdvisory] else []) ↔ _
  rw [← List.countP_eq_length_filter]
  by_cases h : 3 ≤ events.countP (fun e => decide (e.energia.getD 3 ≤ 2))
  · simp [h]
  · simp [h]

/-- C6: the overview top-pattern tally counts raw occurrences: a pattern
appearing k times in one event's list contributes k, with no per-event
deduplication. -/
theorem overview_counts_raw_occurrences (events : List AggEvent) (p : String) :
    clookup (pattern_counter events) p =
      (events.map (fun e => e.pattern_rilevati.count p)).sum := by
  have hcnt : ∀ l : List String, ccount l p = l.count p := by
    intro l
    rw [ccount, List.count]
    apply List.countP_congr
    intro x _
    by_cases hx : x = p <;> simp [hx]
  suffices h : ∀ (l : List AggEvent) (c : CounterL String),
      clookup (l.foldl (fun c e => e.pattern_rilevati.foldl incr c) c) p =
        clookup c p + (l.map (fun e => e.pattern_rilevati.count p)).sum by
    simpa [pattern_counter, clookup] using h events []
  intro l
  induction l with
  | nil => simp
  | cons e es ih =>
    intro c
    rw [List.foldl_cons, ih, clookup_foldl_incr, hcnt, List.map_cons,
      List.sum_cons]
    omega

theorem sincroOf_eq_some {fc : CounterL String} {T : ℚ}
    {entry : (String × String) × Nat} {s : Sincro}
    (h : sincroOf fc T entry = some s) :
    s = ⟨entry.1.1, entry.1.2,
        round2 ((entry.2 : ℚ) / expectedOf fc T entry.1.1 entry.1.2),
        interpretazioneStr⟩ ∧
    0 < expectedOf fc T entry.1.1 entry.1.2 ∧
    expectedOf fc T entry.1.1 entry.1.2 * 2 < (entry.2 : ℚ) := by
  unfold sincroOf at h
  split at h
  · injection h with h
    exact ⟨h.symm, by assumption⟩
  · cases h

theorem mem_filterMap_sincroOf (pc : CounterL (String × String))
    (fc : CounterL String) (T : ℚ) (hnodup : (ckeys pc).Nodup) (a b : String) :
    (∃ s ∈ pc.filterMap (sincroOf fc T), s.pattern_a = a ∧ s.pattern_b = b) ↔
      (0 < expectedOf fc T a b ∧
        expectedOf fc T a b * 2 < (clookup pc (a, b) : ℚ)) := by
  constructor
  · rintro ⟨s, hs, hsa, hsb⟩
    rw [List.mem_filterMap] at hs
    obtain ⟨entry, hentry, hf⟩ := hs
    obtain ⟨hse, hpos, hgt⟩ := sincroOf_eq_some hf
    subst hse
    have ha : entry.1.1 = a := hsa
    have hb : entry.1.2 = b := hsb
    have hkey : entry.1 = (a, b) := Prod.ext ha hb
    have hcl : clookup pc (a, b) = entry.2 := by
      apply clookup_eq_of_mem hnodup
      rw [← hkey]
      exact hentry
    rw [hcl, ← ha, ← hb]
    exact ⟨hpos, hgt⟩
  · rintro ⟨hpos, hgt⟩
    have hc0 : clookup pc (a, b) ≠ 0 := by
      intro h0
      rw [h0, Nat.cast_zero] at hgt
      have h2 : (0 : ℚ) < expectedOf fc T a b * 2 :=
        mul_pos hpos (by norm_num)
      linarith
    refine ⟨⟨a, b,
      round2 ((clookup pc (a, b) : ℚ) / expectedOf fc T a b),
      interpretazioneStr⟩, ?_, rfl, rfl⟩
    rw [List.mem_filterMap]
    refine ⟨((a, b), clookup pc (a, b)), mem_of_clookup_ne_zero hc0, ?_⟩
    unfold sincroOf
    rw [if_pos ⟨hpos, hgt⟩]

theorem significance_filterMap_sincroOf (pc : CounterL (String × String))
    (fc : CounterL String) (T : ℚ) (hnodup : (ckeys pc).Nodup) (a b : String) :
    ∀ s ∈ pc.filterMap (sincroOf fc T), s.pattern_a = a → s.pattern_b = b →
      s.significance =
        round2 ((clookup pc (a, b) : ℚ) / expectedOf fc T a b) := by
  intro s hs hsa hsb
  rw [List.mem_filterMap] at hs
  obtain ⟨entry, hentry, hf⟩ := hs
  obtain ⟨hse, hpos, hgt⟩ := sincroOf_eq_some hf
  subst hse
  have ha : entry.1.1 = a := hsa
  have hb : entry.1.2 = b := hsb
  have hkey : entry.1 = (a, b) := Prod.ext ha hb
  have hcl : clookup pc (a, b) = entry.2 := by
    apply clookup_eq_of_mem hnodup
    rw [← hkey]
    exact hentry
  show round2 ((entry.2 : ℚ) / expectedOf fc T entry.1.1 entry.1.2) = _
  rw [hcl, ha, hb]

/-- C5: in the alerts computation, pair counts and marginal frequencies are
accumulated over the distinct set of each event's patterns: per event, a
pattern adds at most 1 to its marginal frequency and an unordered pair of
distinct patterns (taken in sorted order) adds at most 1 to its pair count,
regardless of duplicates in the event's pattern list. -/
theorem alerts_per_event_dedup (pc : CounterL (String × String))
    (fc : CounterL String) (e : AggEvent) :
    (∀ p, clookup (alertStep (pc, fc) e).2 p =
      clookup fc p + (if p ∈ e.pattern_rilevati then 1 else 0)) ∧
    (∀ a b, a < b → clookup (alertStep (pc, fc) e).1 (a, b) =
      clookup pc (a, b) +
        (if a ∈ e.pattern_rilevati ∧ b ∈ e.pattern_rilevati then 1 else 0)) :=
  ⟨fun p => alertStep_freq (pc, fc) e p,
    fun a b hab => alertStep_pair (pc, fc) e a b hab⟩

theorem alerts_per_event_dedup_witness :
    clookup (alertStep (([] : CounterL (String × String)),
        ([] : CounterL String)) ⟨["y", "x", "x"], none⟩).1 ("x", "y") =
      clookup ([] : CounterL (String × String)) ("x", "y") +
        (if "x" ∈ (["y", "x", "x"] : List String) ∧
            "y" ∈ (["y", "x", "x"] : List String) then 1 else 0) := by
  have hab : ("x" : String) < "y" := by
    rw [String.lt_iff_toList_lt]
    decide
  exact (alerts_per_event_dedup [] [] ⟨["y", "x", "x"], none⟩).2 "x" "y" hab

/-- C1: for every event list and every unordered pattern pair, normalized as
(a, b) with a < b, the alerts computation reports the pair if and only if its
expected co-occurrence e = (freq[a]/T) * (freq[b]/T) * T is positive and its
pair count c satisfies c > 2 * e, with T the total event count taken as at
least 1; and every reported entry for the pair carries significance
round2(c / e). -/
theorem alerts_report_iff (events : List AggEvent) (a b : String)
    (_hab : a < b) :
    ((∃ s ∈ (regina_alerts events).1, s.pattern_a = a ∧ s.pattern_b = b) ↔
      (0 < expectedOf (alertCounters events).2
          ((max events.length 1 : Nat) : ℚ) a b ∧
        expectedOf (alertCounters events).2
            ((max events.length 1 : Nat) : ℚ) a b * 2 <
          (clookup (alertCounters events).1 (a, b) : ℚ))) ∧
    (∀ s ∈ (regina_alerts events).1, s.pattern_a = a → s.pattern_b = b →
      s.significance =
        round2 ((clookup (alertCounters events).1 (a, b) : ℚ) /
          expectedOf (alertCounters events).2
            ((max events.length 1 : Nat) : ℚ) a b)) :=
  ⟨mem_filterMap_sincroOf (alertCounters events).1 (alertCounters events).2
      ((max events.length 1 : Nat) : ℚ) (alertCounters_pair_nodup events) a b,
    significance_filterMap_sincroOf (alertCounters events).1
      (alertCounters events).2 ((max events.length 1 : Nat) : ℚ)
      (alertCounters_pair_nodup events) a b⟩

/-- Five events: two share the patterns x and y, three carry singletons. -/
def evA : List AggEvent :=
  [⟨["x", "y"], none⟩, ⟨["x", "y"], none⟩, ⟨["a"], none⟩,
    ⟨["b"], none⟩, ⟨["c"], none⟩]

theorem alerts_report_iff_witness :
    ∃ s ∈ (regina_alerts evA).1, s.pattern_a = "x" ∧ s.pattern_b = "y" := by
  have hab : ("x" : String) < "y" := by
    rw [String.lt_iff_toList_lt]
    decide
  have hfx : clookup (alertCounters evA).2 "x" = 2 := by
    rw [alertCounters_freq]
    decide
  have hfy : clookup (alertCounters evA).2 "y" = 2 := by
    rw [alertCounters_freq]
    decide
  have hc : clookup (alertCounters evA).1 ("x", "y") = 2 := by
    rw [alertCounters_pair evA "x" "y" hab]
    decide
  have hT : ((max evA.length 1 : Nat) : ℚ) = 5 := by norm_num [evA]
  apply (alerts_report_iff evA "x" "y" hab).1.mpr
  constructor
  · rw [expectedOf, hfx, hfy, hT]
    norm_num
  · rw [expectedOf, hfx, hfy, hT, hc]
    norm_num

/-- C10: every pair accumulated in the pair counter has both marginal
frequencies at least 1 and total event count at least 1, so its expected
value is strictly positive: the `expected > 0` guard never excludes an
accumulated pair and `count / expected` never divides by zero. -/
theorem alerts_expected_positive (events : List AggEvent) (a b : String)
    (h : clookup (alertCounters events).1 (a, b) ≠ 0) :
    0 < expectedOf (alertCounters events).2
        ((max events.length 1 : Nat) : ℚ) a b ∧
    ((0 < expectedOf (alertCounters events).2
          ((max events.length 1 : Nat) : ℚ) a b ∧
        expectedOf (alertCounters events).2
            ((max events.length 1 : Nat) : ℚ) a b * 2 <
          (clookup (alertCounters events).1 (a, b) : ℚ)) ↔
      expectedOf (alertCounters events).2
          ((max events.length 1 : Nat) : ℚ) a b * 2 <
        (clookup (alertCounters events).1 (a, b) : ℚ)) := by
  have hmem := mem_of_clookup_ne_zero h
  have hab : a < b := alertCounters_pair_keys_lt events _ hmem
  have hc := alertCounters_pair events a b hab
  rw [hc] at h
  obtain ⟨ev, hev, hpred⟩ := List.countP_pos_iff.mp (Nat.pos_of_ne_zero h)
  have hpred2 := of_decide_eq_true hpred
  have hfa : 0 < clookup (alertCounters events).2 a := by
    rw [alertCounters_freq]
    exact List.countP_pos_iff.mpr ⟨ev, hev, decide_eq_true hpred2.1⟩
  have hfb : 0 < clookup (alertCounters events).2 b := by
    rw [alertCounters_freq]
    exact List.countP_pos_iff.mpr ⟨ev, hev, decide_eq_true hpred2.2⟩
  have hT : (0 : ℚ) < ((max events.length 1 : Nat) : ℚ) := by
    have h1 : 1 ≤ max events.length 1 := le_max_right _ _
    exact_mod_cast Nat.lt_of_lt_of_le Nat.zero_lt_one h1
  have hpos : 0 < expectedOf (alertCounters events).2
      ((max events.length 1 : Nat) : ℚ) a b := by
    rw [expectedOf]
    apply mul_pos (mul_pos ?_ ?_) hT
    · exact div_pos (by exact_mod_cast hfa) hT
    · exact div_pos (by exact_mod_cast hfb) hT
  exact ⟨hpos, fun hx => hx.2, fun hx => ⟨hpos, hx⟩⟩

theorem alerts_expected_positive_witness :
    0 < expectedOf (alertCounters [(⟨["x", "y"], none⟩ : AggEvent)]).2
        ((max (List.length [(⟨["x", "y"], none⟩ : AggEvent)]) 1 : Nat) : ℚ)
        "x" "y" := by
  have hab : ("x" : String) < "y" := by
    rw [String.lt_iff_toList_lt]
    decide
  have h : clookup (alertCounters [(⟨["x", "y"], none⟩ : AggEvent)]).1
      ("x", "y") ≠ 0 := by
    rw [alertCounters_pair _ "x" "y" hab]
    decide
  exact (alerts_expected_positive _ "x" "y" h).1
